import Mathlib

/-!
Verification development for the `tiny_deep_research` repository.

The development shallowly embeds the repository's core algorithms:

* `tiny_deep_research/text_splitter/recursive_text_splitter.py`
  (`RecursiveCharacterTextSplitter.split_text`) and
  `tiny_deep_research/text_splitter/base_text_splitter.py`
  (`BaseTextSplitter.merge_splits`, `BaseTextSplitter._join_docs`);
* `tiny_deep_research/utils/trim_prompt.py` (`trim_prompt`);
* `tiny_deep_research/deep_research.py` (`generate_serp_queries`,
  `deep_research` with its inner `process_query`).

Text is modelled as `List Char`.  Python's general recursion is embedded with
an explicit fuel argument that is structurally consumed; for every function we
pass `length + 1` fuel, which is enough whenever the Python code terminates
(each recursive call is on a strictly shorter text), so the embedding computes
the same values as the source on those inputs.

External collaborators (the LLM, the search/scrape gateway, the tiktoken
token counter) are parameters: the token counter is an arbitrary function
`Text → Nat`, and the LLM / search responses are supplied by an `Env` record,
exactly as the specification describes them as interfaces.
-/

namespace TinyDeepResearch

abbrev Text := List Char

/-- ASCII whitespace in the sense of Python's `str.strip` (Python also strips
the rare non-ASCII Unicode spaces; none of the separators or inputs considered
here involve them). -/
def isPySpace (c : Char) : Bool :=
  c = ' ' || c = '\t' || c = '\n' || c = '\r' || c = '\x0b' || c = '\x0c'

/-- Python's `str.strip()`: remove whitespace from both ends (right end first;
the two sides are independent). -/
def pyStrip (t : Text) : Text :=
  ((t.reverse.dropWhile isPySpace).reverse).dropWhile isPySpace

/-- `SubSeg w l`: `w` occurs in `l` as a contiguous segment (the meaning of
Python's substring containment `w in l` for strings). -/
def SubSeg {α : Type} (w l : List α) : Prop :=
  ∃ p s, p ++ w ++ s = l

/-- `leadsWith sep t = true` iff `sep` is an initial segment of `t`
(Python `t.startswith(sep)`). -/
def leadsWith : Text → Text → Bool
  | [], _ => true
  | _ :: _, [] => false
  | a :: as, b :: bs => a = b && leadsWith as bs

/-- Python's substring test `sep in t` for a non-empty `sep`. -/
def containsSeq (sep : Text) : Text → Bool
  | [] => leadsWith sep []
  | c :: r => leadsWith sep (c :: r) || containsSeq sep r

/-- Python's `sep.join(docs)`. -/
def joinSep (sep : Text) : List Text → Text
  | [] => []
  | [x] => x
  | x :: y :: rest => x ++ sep ++ joinSep sep (y :: rest)

/-- Scanner behind Python's `t.split(sep)` for non-empty `sep`: find the
leftmost occurrence, cut, continue after it.  `cur` is the reversed piece
being accumulated; `fuel` only bounds the recursion and `t.length + 1` always
suffices (every step consumes at least one character). -/
def splitGo (sep : Text) : Nat → Text → Text → List Text
  | 0, t, cur => [cur.reverse ++ t]
  | _ + 1, [], cur => [cur.reverse]
  | fuel + 1, c :: r, cur =>
    if !sep.isEmpty && leadsWith sep (c :: r) then
      cur.reverse :: splitGo sep fuel ((c :: r).drop sep.length) []
    else splitGo sep fuel r (c :: cur)

/-- Python's `t.split(sep)` for a non-empty separator (`"".split` is a
`ValueError` in Python and is never reached by the embedded code). -/
def splitOnSep (sep t : Text) : List Text :=
  splitGo sep (t.length + 1) t []

/-- The default separator cascade of `RecursiveCharacterTextSplitter`. -/
def defaultSeparators : List Text :=
  [['\n', '\n'], ['\n'], ['.'], ['。'], ['；'], ['，'], [','], ['>'], ['<'],
   [' '], []]

/-- The separator-selection loop of `split_text`: the first entry that is the
empty string or occurs in `text`. -/
def chooseSepFrom (t : Text) : List Text → Option Text
  | [] => none
  | s :: rest =>
    if s.isEmpty then some s
    else if containsSeq s t then some s
    else chooseSepFrom t rest

/-- Separator chosen by `split_text` for `t`: the loop above, with
`separators[-1]` as the fallback (for the default cascade the fallback is
`""`, and the loop always selects something because `""` is in the list). -/
def chooseSep (t : Text) : Text :=
  (chooseSepFrom t defaultSeparators).getD []

/-- `BaseTextSplitter._join_docs`: join with the separator, strip, and drop
the result when it strips to the empty string. -/
def joinStrip (sep : Text) (docs : List Text) : Option Text :=
  let text := pyStrip (joinSep sep docs)
  if text.isEmpty then none else some text

/-- The `while` loop inside `merge_splits` that pops pieces from the front of
`current_doc` until the buffered total is within `chunk_overlap` (and adding
the next piece of length `dlen` would fit).  In the source `total` is always
the sum of the lengths of `cur`, under which the `[]` case is unreachable with
the loop guard still true (Python would raise `IndexError` there). -/
def shrink (co cs dlen : Nat) : List Text → Nat → List Text × Nat
  | [], total => ([], total)
  | c :: rest, total =>
    if co < total ∨ (cs < total + dlen ∧ 0 < total) then
      shrink co cs dlen rest (total - c.length)
    else (c :: rest, total)

/-- The `for` loop of `BaseTextSplitter.merge_splits` over the remaining
`splits`, carrying the emitted `docs`, the buffer `current_doc` and its
running character `total`.  (The oversize warning print is I/O only and is
omitted.) -/
def mergeLoop (cs co : Nat) (sep : Text) :
    List Text → List Text → List Text → Nat → List Text
  | [], docs, cur, _ => docs ++ (joinStrip sep cur).toList
  | d :: rest, docs, cur, total =>
    if cs ≤ total + d.length then
      if cur.isEmpty then
        mergeLoop cs co sep rest docs (cur ++ [d]) (total + d.length)
      else
        let docs' := docs ++ (joinStrip sep cur).toList
        let shr := shrink co cs d.length cur total
        mergeLoop cs co sep rest docs' (shr.1 ++ [d]) (shr.2 + d.length)
    else
      mergeLoop cs co sep rest docs (cur ++ [d]) (total + d.length)

/-- `BaseTextSplitter.merge_splits` with `chunk_size = cs`,
`chunk_overlap = co`. -/
def mergeSplits (cs co : Nat) (sep : Text) (splits : List Text) : List Text :=
  mergeLoop cs co sep splits [] [] 0

/-- `final_chunks.extend(self.merge_splits(good_splits, separator))` guarded
by `if good_splits:`. -/
def mergeNonempty (cs co : Nat) (sep : Text) (good : List Text) : List Text :=
  if good.isEmpty then [] else mergeSplits cs co sep good

/-- The `for s in splits:` loop of `split_text`: short pieces are buffered in
`good`, an oversized piece flushes the buffer through `merge_splits` and is
handled by the recursive call `recur`. -/
def splitLoop (recur : Text → List Text) (cs co : Nat) (sep : Text) :
    List Text → List Text → List Text
  | [], good => mergeNonempty cs co sep good
  | s :: rest, good =>
    if s.length < cs then splitLoop recur cs co sep rest (good ++ [s])
    else
      mergeNonempty cs co sep good ++ recur s ++ splitLoop recur cs co sep rest []

/-- Fueled embedding of `RecursiveCharacterTextSplitter.split_text` with the
default separator cascade.  `fuel = text.length + 1` suffices whenever
`2 ≤ cs` because every recursive call is on a strictly shorter piece. -/
def splitTextF : Nat → Nat → Nat → Text → List Text
  | 0, _, _, _ => []
  | fuel + 1, cs, co, t =>
    let sep := chooseSep t
    let splits := if sep.isEmpty then t.map (fun c => [c]) else splitOnSep sep t
    splitLoop (fun s => splitTextF fuel cs co s) cs co sep splits []

/-- `RecursiveCharacterTextSplitter(chunk_size := cs, chunk_overlap := co)
.split_text t` (construction additionally requires `co < cs`, else the
constructor raises `ValueError`). -/
def splitText (cs co : Nat) (t : Text) : List Text :=
  splitTextF (t.length + 1) cs co t

/-- `MIN_CHUNK_SIZE` from `utils/trim_prompt.py`. -/
def MIN_CHUNK_SIZE : Nat := 140

/-- Fueled embedding of `trim_prompt(prompt, context_size)`.  The token
counter `enc` stands for `len(encoder.encode(prompt))`, an external
collaborator per the specification.  Fuel `prompt.length + 1` always suffices:
both recursive calls are on strictly shorter texts (proved below). -/
def trimF : Nat → (Text → Nat) → Text → Nat → Text
  | 0, _, t, _ => t
  | fuel + 1, enc, t, context_size =>
    if t.isEmpty then t
    else
      let length := enc t
      if length ≤ context_size then t
      else
        let overflow := length - context_size
        let chunkSize : Int := (t.length : Int) - 3 * (overflow : Int)
        if chunkSize < (MIN_CHUNK_SIZE : Int) then t.take MIN_CHUNK_SIZE
        else
          let cs := chunkSize.toNat
          let trimmed := (splitText cs 0 t).headD []
          if trimmed.length = t.length then trimF fuel enc (t.take cs) context_size
          else trimF fuel enc trimmed context_size

/-- `trim_prompt(prompt, context_size)` with token counter `enc`. -/
def trim_prompt (enc : Text → Nat) (t : Text) (context_size : Nat) : Text :=
  trimF (t.length + 1) enc t context_size

/-- Parsed JSON values, the possible results of Python's `json.loads`. -/
inductive Json where
  | null
  | bool (b : Bool)
  | num (n : Int)
  | str (s : String)
  | arr (xs : List Json)
  | obj (kvs : List (String × Json))

/-- Python `dict.get` on the field list of a parsed object.  A dict produced
by `json.loads` keeps the last occurrence of a duplicated key, hence the
last-wins lookup. -/
def getKey : List (String × Json) → String → Option Json
  | [], _ => none
  | (k, v) :: rest, key =>
    match getKey rest key with
    | some r => some r
    | none => if k = key then some v else none

/-- The `SerpQuery` dataclass as built by `SerpQuery(**q)`: the JSON values of
the `query` and `research_goal` fields (the dataclass does not check their
types). -/
structure SerpQueryJ where
  query : Json
  research_goal : Json

/-- `SerpQuery(**q)` for one entry `q` of the `queries` array: succeeds only
on a JSON object whose key set is exactly `{query, research_goal}`; any other
value raises `TypeError`, which `generate_serp_queries` does not catch. -/
def serpQueryOfJson : Json → Except Unit SerpQueryJ
  | .obj kvs =>
    match getKey kvs "query", getKey kvs "research_goal" with
    | some q, some g =>
      if kvs.all (fun kv => kv.1 = "query" || kv.1 = "research_goal") then
        .ok ⟨q, g⟩
      else .error ()
    | _, _ => .error ()
  | _ => .error ()

/-- The list comprehension `[SerpQuery(**q) for q in queries]`: left to right,
the first failing element raises. -/
def mapSerp : List Json → Except Unit (List SerpQueryJ)
  | [] => .ok []
  | j :: rest =>
    match serpQueryOfJson j with
    | .error e => .error e
    | .ok q =>
      match mapSerp rest with
      | .error e => .error e
      | .ok qs => .ok (q :: qs)

/-- The response-parsing tail of `generate_serp_queries` (deep_research.py,
lines 64-71).  `resp` is the LLM response after `json.loads`: `none` models a
`json.JSONDecodeError` (the only exception the function catches, answered
with `[]`); `some j` is the parsed value.  `.error ()` models an uncaught
exception (`AttributeError` from `.get` on a non-dict, `TypeError` from
iterating a non-iterable or from `SerpQuery(**q)`); iterating a dict yields
its keys and iterating a string yields its characters, so the non-empty ones
also raise inside `SerpQuery(**q)`.  The comprehension builds the full list
before `[:num_queries]` truncates it. -/
def generate_serp_queries (resp : Option Json) (num_queries : Nat) :
    Except Unit (List SerpQueryJ) :=
  match resp with
  | none => .ok []
  | some j =>
    match j with
    | .obj kvs =>
      match (getKey kvs "queries").getD (.arr []) with
      | .arr qs => (mapSerp qs).map (fun l => l.take num_queries)
      | .obj kvs' => if kvs'.isEmpty then .ok [] else .error ()
      | .str s => if s.isEmpty then .ok [] else .error ()
      | _ => .error ()
    | _ => .error ()

/-- An entry of `result["data"]` from the search/scrape gateway:
`item.get("url")` and `item.get("content")`. -/
structure SearchItem where
  url : Option String
  content : Option String
deriving DecidableEq

/-- `ResearchResult` from deep_research.py. -/
structure ResearchResult where
  learnings : List String
  visited_urls : List String
deriving DecidableEq

/-- `SerpQuery` as consumed by the orchestrator (string fields, the shape the
prompt requests; `generate_serp_queries` above models the raw parse). -/
structure SerpQuery where
  query : String
  research_goal : String
deriving DecidableEq

/-- The synthesized next query of `process_query` (the f-string with the
research goal and joined follow-up questions, then `.strip()`). -/
def next_query (research_goal : String) (followUps : List String) : String :=
  String.mk (pyStrip ("\n                    上层搜索目标: " ++ research_goal ++
    "\n                    发现的新方向: " ++ String.intercalate " " followUps ++
    "\n                    ").data)

/-- External collaborators of `deep_research`, keyed by the semantic inputs
that determine the prompts / requests built from them.

* `planOut query num_queries learnings` is the outcome of
  `generate_serp_queries` for that call: `.error ()` when its uncaught
  `TypeError`/`AttributeError` is raised (see `generate_serp_queries`),
  otherwise the parsed sub-query list.
* `search query` is `search_service.search(query, limit=5)`: the extracted
  items, or `.error ()` when the gateway raises.
* `extract query items num_follow_up_questions` is the outcome of
  `process_serp_result` (which internally catches `json.JSONDecodeError` and
  answers empty lists): the `(learnings, followUpQuestions)` pair, or
  `.error ()` when it raises an exception its caller must catch. -/
structure Env where
  planOut : String → Nat → List String → Except Unit (List SerpQuery)
  search : String → Except Unit (List SearchItem)
  extract : String → List SearchItem → Nat → Except Unit (List String × List String)

/-- `new_breadth = max(1, breadth // 2)` (deep_research.py, line 232). -/
def newBreadth (breadth : Nat) : Nat := max 1 (breadth / 2)

/-- Python `list(set(xs))` over strings: the set contents with duplicates
collapsed.  Python's iteration order over a set is unspecified; we fix the
first-occurrence order, which has the same set of elements. -/
def dedup (xs : List String) : List String := xs.dedup

/-- The inner `process_query(serp_query)` of `deep_research`
(deep_research.py, lines 213-279), with the recursive `deep_research` call
abstracted as `recur`.  Its `try`/`except` catches every exception raised
inside the branch (search failure, extraction failure, and any error the
recursive call propagates) and answers `{[], []}` for the branch. -/
def process_queryF
    (recur : String → Nat → Int → Nat → List String → List String →
      Except Unit ResearchResult)
    (env : Env) (breadth : Nat) (depth : Int) (concurrency : Nat)
    (learnings visited_urls : List String) (serp_query : SerpQuery) :
    ResearchResult :=
  match env.search serp_query.query with
  | .error _ => ⟨[], []⟩
  | .ok items =>
    let new_urls := items.filterMap
      (fun item => item.url.bind (fun u => if u = "" then none else some u))
    let new_breadth := newBreadth breadth
    let new_depth := depth - 1
    match env.extract serp_query.query items new_breadth with
    | .error _ => ⟨[], []⟩
    | .ok (new_learnings, followUps) =>
      let all_learnings := learnings ++ new_learnings
      let all_urls := visited_urls ++ new_urls
      if 0 < new_depth then
        match recur (next_query serp_query.research_goal followUps)
            new_breadth new_depth concurrency all_learnings all_urls with
        | .ok r => r
        | .error _ => ⟨[], []⟩
      else ⟨all_learnings, all_urls⟩

/-- Fueled embedding of `deep_research(query, breadth, depth, concurrency,
llm_client, learnings, visited_urls)`.  The `asyncio.Semaphore(concurrency)`
and `asyncio.gather` only schedule the per-query tasks; `gather` returns
results in input order, so the pure model maps `process_query` over the
queries in order.  The planner call of this invocation is outside any `try`,
so its failure propagates.  Fuel `depth.toNat + 1` always suffices: recursion
only happens when `0 < depth - 1`. -/
def deep_researchF : Nat → Env → String → Nat → Int → Nat →
    List String → List String → Except Unit ResearchResult
  | 0, _, _, _, _, _, _, _ => .error ()
  | fuel + 1, env, query, breadth, depth, concurrency, learnings, visited_urls =>
    match env.planOut query breadth learnings with
    | .error e => .error e
    | .ok serp_queries =>
      let results := serp_queries.map
        (process_queryF (deep_researchF fuel env) env breadth depth concurrency
          learnings visited_urls)
      .ok ⟨dedup (results.flatMap (fun r => r.learnings)),
           dedup (results.flatMap (fun r => r.visited_urls))⟩

/-- `deep_research` at adequate fuel. -/
def deep_research (env : Env) (query : String) (breadth : Nat) (depth : Int)
    (concurrency : Nat) (learnings visited_urls : List String) :
    Except Unit ResearchResult :=
  deep_researchF (depth.toNat + 1) env query breadth depth concurrency
    learnings visited_urls

/-- An environment whose planner parse always yields a non-empty plan. -/
def PlansNonempty (env : Env) : Prop :=
  ∀ q b l, ∃ qs, env.planOut q b l = .ok qs ∧ qs ≠ []

/-- An environment whose search gateway never raises. -/
def SearchTotal (env : Env) : Prop :=
  ∀ q, ∃ items, env.search q = .ok items

/-- An environment whose learnings extraction never raises. -/
def ExtractTotal (env : Env) : Prop :=
  ∀ q items nb, ∃ lf, env.extract q items nb = .ok lf

/-- Environment whose planner always returns an empty plan (and whose other
collaborators are trivial). -/
def envPlanEmpty : Env where
  planOut := fun _ _ _ => .ok []
  search := fun _ => .ok []
  extract := fun _ _ _ => .ok ([], [])

/-- Environment whose planner returns one sub-query for the root query `"Q"`
and an empty plan for every other query: the branch under `"Q"` recurses and
its recursive call hits the empty plan. -/
def envBranchDrop : Env where
  planOut := fun q _ _ => if q = "Q" then .ok [⟨"s", "g"⟩] else .ok []
  search := fun _ => .ok []
  extract := fun _ _ _ => .ok ([], [])

/-- A test token counter: one token per character. -/
def lenEnc : Text → Nat := List.length

instance exceptDecEq {ε α : Type} [DecidableEq ε] [DecidableEq α] :
    DecidableEq (Except ε α) := fun a b =>
  match a, b with
  | .ok x, .ok y =>
    if h : x = y then .isTrue (by rw [h])
    else .isFalse (by intro hc; injection hc; exact h (by assumption))
  | .error x, .error y =>
    if h : x = y then .isTrue (by rw [h])
    else .isFalse (by intro hc; injection hc; exact h (by assumption))
  | .ok _, .error _ => .isFalse (by intro hc; exact Except.noConfusion hc)
  | .error _, .ok _ => .isFalse (by intro hc; exact Except.noConfusion hc)

/-- A planner LLM response entry on which `SerpQuery(**q)` succeeds: a JSON
object whose keys are exactly `query` and `research_goal`. -/
def isProperQueryObj : Json → Bool
  | .obj kvs =>
    (getKey kvs "query").isSome && (getKey kvs "research_goal").isSome &&
      kvs.all (fun kv => kv.1 = "query" || kv.1 = "research_goal")
  | _ => false

/-- A planner LLM response on which the parsing tail of
`generate_serp_queries` raises nothing: a JSON object whose `queries` field
(if present) is an array of proper query objects. -/
def wellFormedPlan : Json → Bool
  | .obj kvs =>
    match (getKey kvs "queries").getD (.arr []) with
    | .arr qs => qs.all isProperQueryObj
    | _ => false
  | _ => false

/-- A concrete well-formed planner response with one query. -/
def planJson : Json :=
  .obj [("queries", .arr
    [.obj [("query", .str "a"), ("research_goal", .str "b")]])]

/-- Environment whose planner always returns exactly one sub-query and whose
search and extraction always succeed with empty data. -/
def envAlwaysOne : Env where
  planOut := fun _ _ _ => .ok [⟨"s", "g"⟩]
  search := fun _ => .ok []
  extract := fun _ _ _ => .ok ([], [])

/-- Sum of the piece lengths of a buffer (the quantity `total` tracks in
`merge_splits`; it does not count the separators `_join_docs` inserts). -/
def sumLen (w : List Text) : Nat := (w.map List.length).sum

/-- Shape of every chunk `split_text` returns: the whitespace-strip of the
separator-join of a non-empty contiguous window of pieces, each piece shorter
than `cs` and their lengths summing to at most `cs`; the joined window is a
contiguous segment of the input text. -/
def ChunkShape (cs : Nat) (t c : Text) : Prop :=
  ∃ sep w, w ≠ [] ∧ (∀ p ∈ w, p.length < cs) ∧ sumLen w ≤ cs ∧
    c = pyStrip (joinSep sep w) ∧ c ≠ [] ∧ SubSeg (joinSep sep w) t

theorem subseg_trans {α : Type} {a b c : List α} (h1 : SubSeg a b)
    (h2 : SubSeg b c) : SubSeg a c := by
  obtain ⟨p1, s1, rfl⟩ := h1
  obtain ⟨p2, s2, rfl⟩ := h2
  exact ⟨p2 ++ p1, s1 ++ s2, by simp⟩

theorem subseg_length_le {α : Type} {a b : List α} (h : SubSeg a b) :
    a.length ≤ b.length := by
  obtain ⟨p, s, rfl⟩ := h
  simp
  omega

theorem dropWhile_suffix {α : Type} (q : α → Bool) (t : List α) :
    ∃ p, p ++ t.dropWhile q = t := by
  induction t with
  | nil => exact ⟨[], rfl⟩
  | cons c r ih =>
    by_cases h : q c
    · obtain ⟨p, hp⟩ := ih
      exact ⟨c :: p, by simp [List.dropWhile, h, hp]⟩
    · exact ⟨[], by simp [List.dropWhile, h]⟩

theorem dropWhile_head_not {α : Type} (q : α → Bool) (t : List α) (h : α)
    (hh : (t.dropWhile q).head? = some h) : q h = false := by
  induction t with
  | nil => simp [List.dropWhile] at hh
  | cons c r ih =>
    by_cases hq : q c
    · exact ih (by simpa [List.dropWhile, hq] using hh)
    · simp [List.dropWhile, hq] at hh
      simpa [← hh] using hq

theorem dropWhile_eq_self_of_head {α : Type} (q : α → Bool) (t : List α)
    (h : ∀ x, t.head? = some x → q x = false) : t.dropWhile q = t := by
  cases t with
  | nil => rfl
  | cons c r => simp [List.dropWhile, h c rfl]

theorem pyStrip_subseg (t : Text) : SubSeg (pyStrip t) t := by
  unfold pyStrip
  obtain ⟨p1, hp1⟩ := dropWhile_suffix isPySpace (t.reverse.dropWhile isPySpace).reverse
  obtain ⟨p2, hp2⟩ := dropWhile_suffix isPySpace t.reverse
  refine ⟨p1, p2.reverse, ?_⟩
  have : (t.reverse.dropWhile isPySpace).reverse ++ p2.reverse = t := by
    have := congrArg List.reverse hp2
    simpa using this
  calc p1 ++ (t.reverse.dropWhile isPySpace).reverse.dropWhile isPySpace ++ p2.reverse
      = (p1 ++ (t.reverse.dropWhile isPySpace).reverse.dropWhile isPySpace) ++ p2.reverse := by
        simp
    _ = (t.reverse.dropWhile isPySpace).reverse ++ p2.reverse := by rw [hp1]
    _ = t := this

theorem pyStrip_head_not (t : Text) (h : Char)
    (hh : (pyStrip t).head? = some h) : isPySpace h = false :=
  dropWhile_head_not isPySpace _ h hh

theorem pyStrip_last_not (t : Text) (h : Char)
    (hh : (pyStrip t).getLast? = some h) : isPySpace h = false := by
  unfold pyStrip at hh
  set v := (t.reverse.dropWhile isPySpace).reverse with hv
  rcases hd : v.dropWhile isPySpace with _ | ⟨c, r⟩
  · rw [hd] at hh; simp at hh
  · obtain ⟨p, hp⟩ := dropWhile_suffix isPySpace v
    rw [hd] at hh hp
    have hlast : v.getLast? = some h := by
      rw [← hp, List.getLast?_append]
      rw [hh]
      rfl
    have : v.getLast? = (t.reverse.dropWhile isPySpace).head? := by
      rw [hv, List.getLast?_reverse]
    rw [this] at hlast
    exact dropWhile_head_not isPySpace _ h hlast

theorem pyStrip_eq_self (t : Text)
    (h1 : ∀ x, t.head? = some x → isPySpace x = false)
    (h2 : ∀ x, t.getLast? = some x → isPySpace x = false) : pyStrip t = t := by
  unfold pyStrip
  have hrev : t.reverse.dropWhile isPySpace = t.reverse := by
    apply dropWhile_eq_self_of_head
    intro x hx
    exact h2 x (by rwa [List.head?_reverse] at hx)
  rw [hrev, List.reverse_reverse]
  exact dropWhile_eq_self_of_head _ _ h1

theorem pyStrip_idem (t : Text) : pyStrip (pyStrip t) = pyStrip t :=
  pyStrip_eq_self _ (pyStrip_head_not t) (pyStrip_last_not t)

theorem joinSep_cons (sep x : Text) (rest : List Text) (h : rest ≠ []) :
    joinSep sep (x :: rest) = x ++ sep ++ joinSep sep rest := by
  cases rest with
  | nil => exact absurd rfl h
  | cons y r => rfl

theorem joinSep_append (sep : Text) (a b : List Text) (ha : a ≠ []) (hb : b ≠ []) :
    joinSep sep (a ++ b) = joinSep sep a ++ sep ++ joinSep sep b := by
  induction a with
  | nil => exact absurd rfl ha
  | cons x r ih =>
    cases r with
    | nil =>
      cases b with
      | nil => exact absurd rfl hb
      | cons y s => simp [joinSep]
    | cons y r' =>
      have h1 : (y :: r') ++ b ≠ [] := by simp
      rw [List.cons_append, joinSep_cons sep x _ h1,
        ih (by simp), joinSep_cons sep x (y :: r') (by simp)]
      simp

theorem joinSep_nil_eq_flatten (xs : List Text) : joinSep [] xs = xs.flatten := by
  induction xs with
  | nil => rfl
  | cons x r ih =>
    cases r with
    | nil => simp [joinSep]
    | cons y r' =>
      rw [joinSep_cons [] x _ (by simp), ih]
      simp

theorem flatten_map_singleton (t : Text) :
    (t.map (fun c => [c])).flatten = t := by
  induction t with
  | nil => rfl
  | cons c r ih => simp [ih]

theorem joinSep_window_subseg (sep : Text) (p w s : List Text) (hw : w ≠ []) :
    SubSeg (joinSep sep w) (joinSep sep (p ++ w ++ s)) := by
  cases p with
  | nil =>
    cases s with
    | nil => exact ⟨[], [], by simp⟩
    | cons y s' =>
      rw [List.nil_append, joinSep_append sep w (y :: s') hw (by simp)]
      exact ⟨[], sep ++ joinSep sep (y :: s'), by simp⟩
  | cons x p' =>
    cases s with
    | nil =>
      rw [List.append_nil, joinSep_append sep (x :: p') w (by simp) hw]
      exact ⟨joinSep sep (x :: p') ++ sep, [], by simp⟩
    | cons y s' =>
      rw [joinSep_append sep ((x :: p') ++ w) (y :: s') (by simp) (by simp),
        joinSep_append sep (x :: p') w (by simp) hw]
      exact ⟨joinSep sep (x :: p') ++ sep, sep ++ joinSep sep (y :: s'), by simp⟩

theorem leadsWith_append (sep t : Text) (h : leadsWith sep t = true) :
    sep ++ t.drop sep.length = t := by
  induction sep generalizing t with
  | nil => simp
  | cons a as ih =>
    cases t with
    | nil => simp [leadsWith] at h
    | cons b bs =>
      simp only [leadsWith, Bool.and_eq_true, decide_eq_true_eq] at h
      obtain ⟨rfl, h2⟩ := h
      simpa using ih bs h2

theorem splitGo_ne_nil (sep : Text) (fuel : Nat) (t cur : Text) :
    splitGo sep fuel t cur ≠ [] := by
  induction fuel generalizing t cur with
  | zero => simp [splitGo]
  | succ f ih =>
    cases t with
    | nil => simp [splitGo]
    | cons c r =>
      cases h : (!sep.isEmpty && leadsWith sep (c :: r)) with
      | true => simp [splitGo, h]
      | false => simp only [splitGo, h, Bool.false_eq_true, if_false]; exact ih r (c :: cur)

theorem splitGo_join (sep : Text) (fuel : Nat) (t cur : Text) :
    joinSep sep (splitGo sep fuel t cur) = cur.reverse ++ t := by
  induction fuel generalizing t cur with
  | zero => simp [splitGo, joinSep]
  | succ f ih =>
    cases t with
    | nil => simp [splitGo, joinSep]
    | cons c r =>
      cases h : (!sep.isEmpty && leadsWith sep (c :: r)) with
      | true =>
        simp only [splitGo, h, if_true]
        rw [joinSep_cons sep _ _ (splitGo_ne_nil sep f _ []), ih]
        have hl : leadsWith sep (c :: r) = true := by
          simpa using (Bool.and_elim_right h)
        simp [leadsWith_append sep (c :: r) hl]
      | false =>
        simp only [splitGo, h, Bool.false_eq_true, if_false]
        rw [ih r (c :: cur)]
        simp

theorem splitOn_join (sep t : Text) : joinSep sep (splitOnSep sep t) = t := by
  simpa using splitGo_join sep (t.length + 1) t []

theorem sumLen_nil : sumLen [] = 0 := rfl

theorem sumLen_cons (c : Text) (rest : List Text) :
    sumLen (c :: rest) = c.length + sumLen rest := by
  simp [sumLen]

theorem sumLen_append (a b : List Text) :
    sumLen (a ++ b) = sumLen a + sumLen b := by
  simp [sumLen]

theorem shrink_spec (co cs dlen : Nat) (cur : List Text) (total : Nat)
    (htotal : total = sumLen cur) :
    (∃ dropped, dropped ++ (shrink co cs dlen cur total).1 = cur) ∧
    (shrink co cs dlen cur total).2 = sumLen (shrink co cs dlen cur total).1 ∧
    (shrink co cs dlen cur total).2 ≤ co ∧
    ((shrink co cs dlen cur total).2 + dlen ≤ cs ∨
      (shrink co cs dlen cur total).2 = 0) := by
  induction cur generalizing total with
  | nil =>
    have h0 : total = 0 := by simpa [sumLen] using htotal
    refine ⟨⟨[], rfl⟩, ?_, ?_, ?_⟩ <;> simp [shrink, h0, sumLen]
  | cons c rest ih =>
    by_cases hg : co < total ∨ (cs < total + dlen ∧ 0 < total)
    · have hred : shrink co cs dlen (c :: rest) total =
          shrink co cs dlen rest (total - c.length) := by
        simp [shrink, hg]
      have htot' : total - c.length = sumLen rest := by
        rw [sumLen_cons] at htotal; omega
      obtain ⟨⟨dropped, hdrop⟩, h2, h3, h4⟩ := ih (total - c.length) htot'
      rw [hred]
      exact ⟨⟨c :: dropped, by simp [hdrop]⟩, h2, h3, h4⟩
    · have hred : shrink co cs dlen (c :: rest) total = (c :: rest, total) := by
        simp [shrink, hg]
      rw [hred]
      push_neg at hg
      refine ⟨⟨[], rfl⟩, htotal, hg.1, ?_⟩
      rcases Nat.lt_or_ge cs (total + dlen) with hlt | hge
      · have : total ≤ 0 := hg.2 hlt
        exact Or.inr (by omega)
      · exact Or.inl hge

theorem mergeLoop_mem (cs co : Nat) (sep : Text) (splitsAll : List Text)
    (hAll : ∀ s ∈ splitsAll, s.length < cs) (rest : List Text) :
    ∀ (docs cur : List Text) (total : Nat) (doc : Text),
    (∃ l, l ++ cur ++ rest = splitsAll) →
    total = sumLen cur → total ≤ cs →
    doc ∈ mergeLoop cs co sep rest docs cur total →
    doc ∈ docs ∨ ∃ w, w ≠ [] ∧ SubSeg w splitsAll ∧
      doc = pyStrip (joinSep sep w) ∧ doc ≠ [] ∧ sumLen w ≤ cs := by
  induction rest with
  | nil =>
    intro docs cur total doc hwin htotal hle hmem
    simp only [mergeLoop, List.mem_append] at hmem
    rcases hmem with hmem | hmem
    · exact Or.inl hmem
    · unfold joinStrip at hmem
      by_cases hempty : (pyStrip (joinSep sep cur)).isEmpty
      · simp [hempty] at hmem
      · simp only [hempty, Bool.false_eq_true, if_false, Option.toList_some,
          List.mem_singleton] at hmem
        have hcur : cur ≠ [] := by
          rintro rfl
          simp [joinSep, pyStrip] at hempty
        obtain ⟨l, hl⟩ := hwin
        refine Or.inr ⟨cur, hcur, ⟨l, [], by simpa using hl⟩, hmem, ?_, ?_⟩
        · rw [hmem]
          intro hnil
          rw [hnil] at hempty
          simp at hempty
        · omega
  | cons d rest ih =>
    intro docs cur total doc hwin htotal hle hmem
    obtain ⟨l, hl⟩ := hwin
    have hdmem : d ∈ splitsAll := by
      rw [← hl]; simp
    have hdlen : d.length < cs := hAll d hdmem
    by_cases hclose : cs ≤ total + d.length
    · by_cases hcur : cur.isEmpty
      · have hcur' : cur = [] := by simpa using hcur
        subst hcur'
        simp only [mergeLoop, hclose, if_true, hcur, if_true] at hmem
        have h0 : total = 0 := by simpa [sumLen] using htotal
        refine ih docs [d] (total + d.length) doc
          ⟨l, by simpa using hl⟩ (by simp [sumLen, h0]) (by omega) ?_
        simpa using hmem
      · simp only [mergeLoop, hclose, if_true, hcur, Bool.false_eq_true,
          if_false] at hmem
        obtain ⟨⟨dropped, hdrop⟩, hsh2, hsh3, hsh4⟩ :=
          shrink_spec co cs d.length cur total htotal
        have hwin' : (l ++ dropped) ++
            ((shrink co cs d.length cur total).1 ++ [d]) ++ rest = splitsAll := by
          have h1 : l ++ (dropped ++ (shrink co cs d.length cur total).1) ++
              (d :: rest) = splitsAll := by rw [hdrop]; exact hl
          simpa [List.append_assoc] using h1
        have hrec := ih (docs ++ (joinStrip sep cur).toList)
          ((shrink co cs d.length cur total).1 ++ [d])
          ((shrink co cs d.length cur total).2 + d.length) doc
          ⟨l ++ dropped, hwin'⟩
          (by rw [sumLen_append, hsh2, sumLen_cons, sumLen_nil]; omega)
          (by omega)
          hmem
        rcases hrec with hrec | hrec
        · rcases List.mem_append.mp hrec with hd | hd
          · exact Or.inl hd
          · unfold joinStrip at hd
            by_cases hempty : (pyStrip (joinSep sep cur)).isEmpty
            · simp [hempty] at hd
            · simp only [hempty, Bool.false_eq_true, if_false,
                Option.toList_some, List.mem_singleton] at hd
              have hcurne : cur ≠ [] := by simpa using hcur
              refine Or.inr ⟨cur, hcurne, ⟨l, d :: rest, hl⟩, hd, ?_, by omega⟩
              rw [hd]
              intro hnil
              rw [hnil] at hempty
              simp at hempty
        · exact Or.inr hrec
    · simp only [mergeLoop, hclose, if_false] at hmem
      exact ih docs (cur ++ [d]) (total + d.length) doc
        ⟨l, by rw [← hl]; simp⟩
        (by rw [sumLen_append, sumLen_cons, sumLen_nil]; omega)
        (by omega) hmem

theorem mergeSplits_mem (cs co : Nat) (sep : Text) (splits : List Text)
    (hAll : ∀ s ∈ splits, s.length < cs) (doc : Text)
    (hmem : doc ∈ mergeSplits cs co sep splits) :
    ∃ w, w ≠ [] ∧ SubSeg w splits ∧ doc = pyStrip (joinSep sep w) ∧
      doc ≠ [] ∧ sumLen w ≤ cs := by
  have := mergeLoop_mem cs co sep splits hAll splits [] [] 0 doc
    ⟨[], by simp⟩ rfl (by omega) hmem
  rcases this with h | h
  · simp at h
  · exact h

theorem splitLoop_mem (cs co : Nat) (sep : Text) (t : Text)
    (recur : Text → List Text)
    (hrec : ∀ s c, SubSeg s t → cs ≤ s.length → c ∈ recur s → ChunkShape cs t c) :
    ∀ (splits good : List Text) (c : Text),
    (∀ p ∈ good, p.length < cs) →
    (∀ w, w ≠ [] → (∃ p s, p ++ w ++ s = good ++ splits) →
      SubSeg (joinSep sep w) t) →
    c ∈ splitLoop recur cs co sep splits good → ChunkShape cs t c := by
  intro splits
  induction splits with
  | nil =>
    intro good c hgood hwin hmem
    simp only [splitLoop, mergeNonempty] at hmem
    by_cases hg : good.isEmpty
    · simp [hg] at hmem
    · simp only [hg, Bool.false_eq_true, if_false] at hmem
      obtain ⟨w, hne, hsub, hdoc, hdocne, hsum⟩ :=
        mergeSplits_mem cs co sep good hgood c hmem
      obtain ⟨p, q, hpq⟩ := hsub
      refine ⟨sep, w, hne, ?_, hsum, hdoc, hdocne,
        hwin w hne ⟨p, q, by simp [hpq]⟩⟩
      intro x hx
      exact hgood x (by rw [← hpq]; simp [hx])
  | cons s rest ih =>
    intro good c hgood hwin hmem
    by_cases hs : s.length < cs
    · simp only [splitLoop, hs, if_true] at hmem
      refine ih (good ++ [s]) c ?_ ?_ hmem
      · intro p hp
        rcases List.mem_append.mp hp with hp | hp
        · exact hgood p hp
        · simpa [List.mem_singleton.mp hp] using hs
      · intro w hwne ⟨p, q, hpq⟩
        exact hwin w hwne ⟨p, q, by rw [hpq]; simp⟩
    · simp only [splitLoop, hs, if_false, List.mem_append] at hmem
      rcases hmem with (hmem | hmem) | hmem
      · simp only [mergeNonempty] at hmem
        by_cases hg : good.isEmpty
        · simp [hg] at hmem
        · simp only [hg, Bool.false_eq_true, if_false] at hmem
          obtain ⟨w, hne, hsub, hdoc, hdocne, hsum⟩ :=
            mergeSplits_mem cs co sep good hgood c hmem
          obtain ⟨p, q, hpq⟩ := hsub
          refine ⟨sep, w, hne, ?_, hsum, hdoc, hdocne,
            hwin w hne ⟨p, q ++ (s :: rest), by rw [← hpq]; simp⟩⟩
          intro x hx
          exact hgood x (by rw [← hpq]; simp [hx])
      · have hsub : SubSeg s t := by
          have := hwin [s] (by simp) ⟨good, rest, by simp⟩
          simpa [joinSep] using this
        exact hrec s c hsub (by omega) hmem
      · refine ih [] c (by simp) ?_ hmem
        intro w hwne ⟨p, q, hpq⟩
        have hpq' : p ++ w ++ q = rest := by simpa using hpq
        refine hwin w hwne ⟨good ++ [s] ++ p, q, ?_⟩
        simpa [List.append_assoc] using
          congrArg (fun x => good ++ [s] ++ x) hpq'

theorem splitTextF_shape (fuel : Nat) :
    ∀ (cs co : Nat) (t c : Text), c ∈ splitTextF fuel cs co t →
    ChunkShape cs t c := by
  induction fuel with
  | zero => intro cs co t c hmem; simp [splitTextF] at hmem
  | succ f ih =>
    intro cs co t c hmem
    simp only [splitTextF] at hmem
    have hrec : ∀ s c', SubSeg s t → cs ≤ s.length →
        c' ∈ splitTextF f cs co s → ChunkShape cs t c' := by
      intro s c' hsub _ hc'
      obtain ⟨sep', w, hne, hlen, hsum, hdoc, hdocne, hsub'⟩ := ih cs co s c' hc'
      exact ⟨sep', w, hne, hlen, hsum, hdoc, hdocne, subseg_trans hsub' hsub⟩
    by_cases hsep : (chooseSep t).isEmpty
    · have hsep' : chooseSep t = [] := by simpa using hsep
      rw [hsep'] at hmem
      simp only [List.isEmpty_nil, if_true] at hmem
      refine splitLoop_mem cs co [] t _ hrec _ [] c (by simp) ?_ hmem
      intro w hwne ⟨p, q, hpq⟩
      rw [joinSep_nil_eq_flatten]
      refine ⟨p.flatten, q.flatten, ?_⟩
      have : (p ++ w ++ q).flatten = t := by
        rw [hpq]
        · exact flatten_map_singleton t
      simpa [List.flatten_append] using this
    · simp only [hsep, Bool.false_eq_true, if_false] at hmem
      refine splitLoop_mem cs co (chooseSep t) t _ hrec _ [] c (by simp) ?_ hmem
      intro w hwne ⟨p, q, hpq⟩
      have := joinSep_window_subseg (chooseSep t) p w q hwne
      rw [hpq] at this
      simpa [splitOn_join] using this

theorem splitText_shape (cs co : Nat) (t c : Text)
    (hmem : c ∈ splitText cs co t) : ChunkShape cs t c :=
  splitTextF_shape (t.length + 1) cs co t c hmem

theorem chunkShape_subseg {cs : Nat} {t c : Text} (h : ChunkShape cs t c) :
    SubSeg c t := by
  obtain ⟨sep, w, _, _, _, hdoc, _, hsub⟩ := h
  rw [hdoc]
  exact subseg_trans (pyStrip_subseg (joinSep sep w)) hsub

theorem splitText_chunk_length_le (cs co : Nat) (t c : Text)
    (hmem : c ∈ splitText cs co t) : c.length ≤ t.length :=
  subseg_length_le (chunkShape_subseg (splitText_shape cs co t c hmem))

theorem headD_length_le (cs co : Nat) (t : Text) :
    ((splitText cs co t).headD []).length ≤ t.length := by
  cases h : splitText cs co t with
  | nil => simp [List.headD]
  | cons c rest =>
    simp only [List.headD]
    exact splitText_chunk_length_le cs co t c (by rw [h]; simp)

theorem trim_take_lt (enc : Text → Nat) (t : Text) (n : Nat)
    (hbudget : ¬enc t ≤ n)
    (hmin : ¬((t.length : Int) - 3 * ((enc t - n : Nat) : Int) <
      (MIN_CHUNK_SIZE : Int))) :
    ((t.length : Int) - 3 * ((enc t - n : Nat) : Int)).toNat < t.length := by
  have hov : 1 ≤ enc t - n := by omega
  omega

theorem trimF_fuel_aux (enc : Text → Nat) (n : Nat) :
    ∀ (N : Nat) (t : Text), t.length ≤ N →
    ∀ f1 f2, t.length < f1 → t.length < f2 →
    trimF f1 enc t n = trimF f2 enc t n := by
  intro N
  induction N with
  | zero =>
    intro t hN f1 f2 h1 h2
    have ht : t = [] := by
      cases t with
      | nil => rfl
      | cons c r => simp at hN
    subst ht
    cases f1 with
    | zero => omega
    | succ a =>
      cases f2 with
      | zero => omega
      | succ b => simp [trimF]
  | succ N ih =>
    intro t hN f1 f2 h1 h2
    cases f1 with
    | zero => omega
    | succ a =>
      cases f2 with
      | zero => omega
      | succ b =>
        by_cases hte : t.isEmpty
        · simp [trimF, hte]
        · by_cases hbudget : enc t ≤ n
          · simp [trimF, hte, hbudget]
          · by_cases hmin : (t.length : Int) - 3 * ((enc t - n : Nat) : Int) <
                (MIN_CHUNK_SIZE : Int)
            · simp [trimF, hte, hbudget, hmin]
            · set cs := ((t.length : Int) - 3 * ((enc t - n : Nat) : Int)).toNat
                with hcs
              have hcslt : cs < t.length := trim_take_lt enc t n hbudget hmin
              by_cases hsame : ((splitText cs 0 t).headD []).length = t.length
              · have harg : (t.take cs).length < t.length := by
                  simp [List.length_take]
                  omega
                have heq : trimF a enc (t.take cs) n = trimF b enc (t.take cs) n := by
                  apply ih (t.take cs) (by omega) a b (by omega) (by omega)
                simp only [trimF, hte, Bool.false_eq_true, if_false, hbudget,
                  hmin, hsame, if_true, ← hcs]
                exact heq
              · have hlt : ((splitText cs 0 t).headD []).length < t.length := by
                  have := headD_length_le cs 0 t
                  omega
                have heq : trimF a enc ((splitText cs 0 t).headD []) n =
                    trimF b enc ((splitText cs 0 t).headD []) n := by
                  apply ih _ (by omega) a b (by omega) (by omega)
                simp only [trimF, hte, Bool.false_eq_true, if_false, hbudget,
                  hmin, hsame, if_true, ← hcs]
                exact heq

theorem trimF_eq_trim (enc : Text → Nat) (n : Nat) (t : Text) (fuel : Nat)
    (h : t.length < fuel) : trimF fuel enc t n = trim_prompt enc t n :=
  trimF_fuel_aux enc n t.length t le_rfl fuel (t.length + 1) h (by omega)

theorem trim_budget_or_short (enc : Text → Nat) (n : Nat) :
    ∀ (fuel : Nat) (t : Text), t.length < fuel →
    enc (trimF fuel enc t n) ≤ n ∨
    (trimF fuel enc t n).length ≤ MIN_CHUNK_SIZE := by
  intro fuel
  induction fuel with
  | zero => intro t h; omega
  | succ f ih =>
    intro t h
    by_cases hte : t.isEmpty
    · have ht : t = [] := by simpa using hte
      subst ht
      simp [trimF, MIN_CHUNK_SIZE]
    · by_cases hbudget : enc t ≤ n
      · simp [trimF, hte, hbudget]
      · by_cases hmin : (t.length : Int) - 3 * ((enc t - n : Nat) : Int) <
            (MIN_CHUNK_SIZE : Int)
        · right
          simp [trimF, hte, hbudget, hmin, List.length_take]
        · set cs := ((t.length : Int) - 3 * ((enc t - n : Nat) : Int)).toNat
            with hcs
          have hcslt : cs < t.length := trim_take_lt enc t n hbudget hmin
          by_cases hsame : ((splitText cs 0 t).headD []).length = t.length
          · have harg : (t.take cs).length < f := by
              simp [List.length_take]
              omega
            have := ih (t.take cs) harg
            simpa only [trimF, hte, Bool.false_eq_true, if_false, hbudget,
              hmin, hsame, if_true, ← hcs] using this
          · have hlt : ((splitText cs 0 t).headD []).length < t.length := by
              have := headD_length_le cs 0 t
              omega
            have := ih ((splitText cs 0 t).headD []) (by omega)
            simpa only [trimF, hte, Bool.false_eq_true, if_false, hbudget,
              hmin, hsame, if_true, ← hcs] using this

theorem trim_prompt_budget_or_short (enc : Text → Nat) (t : Text) (n : Nat) :
    enc (trim_prompt enc t n) ≤ n ∨
    (trim_prompt enc t n).length ≤ MIN_CHUNK_SIZE :=
  trim_budget_or_short enc n (t.length + 1) t (by omega)

theorem serpQueryOfJson_ok (j : Json) (h : isProperQueryObj j = true) :
    ∃ r, serpQueryOfJson j = .ok r := by
  cases j with
  | obj kvs =>
    simp only [isProperQueryObj, Bool.and_eq_true] at h
    obtain ⟨⟨hq, hg⟩, hall⟩ := h
    obtain ⟨q, hq'⟩ := Option.isSome_iff_exists.mp hq
    obtain ⟨g, hg'⟩ := Option.isSome_iff_exists.mp hg
    refine ⟨⟨q, g⟩, ?_⟩
    simp [serpQueryOfJson, hq', hg', hall]
  | null => simp [isProperQueryObj] at h
  | bool b => simp [isProperQueryObj] at h
  | num n => simp [isProperQueryObj] at h
  | str s => simp [isProperQueryObj] at h
  | arr xs => simp [isProperQueryObj] at h

theorem mapSerp_ok (qs : List Json)
    (h : ∀ q ∈ qs, isProperQueryObj q = true) :
    ∃ l, mapSerp qs = .ok l := by
  induction qs with
  | nil => exact ⟨[], rfl⟩
  | cons j rest ih =>
    obtain ⟨r, hr⟩ := serpQueryOfJson_ok j (h j (by simp))
    obtain ⟨l, hl⟩ := ih (fun q hq => h q (by simp [hq]))
    exact ⟨r :: l, by simp [mapSerp, hr, hl]⟩

theorem generate_serp_queries_wf (j : Json) (n : Nat)
    (h : wellFormedPlan j = true) :
    ∃ l, generate_serp_queries (some j) n = .ok l ∧ l.length ≤ n := by
  cases j with
  | obj kvs =>
    simp only [wellFormedPlan] at h
    cases hq : (getKey kvs "queries").getD (.arr []) with
    | arr qs =>
      rw [hq] at h
      obtain ⟨l, hl⟩ := mapSerp_ok qs (by simpa [List.all_eq_true] using h)
      refine ⟨l.take n, ?_, ?_⟩
      · simp [generate_serp_queries, hq, hl, Except.map]
      · simp [List.length_take]
    | null => rw [hq] at h; simp at h
    | bool b => rw [hq] at h; simp at h
    | num m => rw [hq] at h; simp at h
    | str s => rw [hq] at h; simp at h
    | obj kvs' => rw [hq] at h; simp at h
  | null => simp [wellFormedPlan] at h
  | bool b => simp [wellFormedPlan] at h
  | num m => simp [wellFormedPlan] at h
  | str s => simp [wellFormedPlan] at h
  | arr xs => simp [wellFormedPlan] at h

theorem process_queryF_monotone
    (recur : String → Nat → Int → Nat → List String → List String →
      Except Unit ResearchResult)
    (env : Env) (b : Nat) (d : Int) (c : Nat) (pl pu : List String)
    (sq : SerpQuery)
    (h2 : SearchTotal env) (h3 : ExtractTotal env)
    (hrec : 0 < d - 1 → ∀ q' b' pl' pu',
      ∃ r, recur q' b' (d - 1) c pl' pu' = .ok r ∧
        pl' ⊆ r.learnings ∧ pu' ⊆ r.visited_urls) :
    pl ⊆ (process_queryF recur env b d c pl pu sq).learnings ∧
    pu ⊆ (process_queryF recur env b d c pl pu sq).visited_urls := by
  obtain ⟨items, hitems⟩ := h2 sq.query
  obtain ⟨⟨nl, fu⟩, hex⟩ := h3 sq.query items (newBreadth b)
  by_cases hd : 0 < d - 1
  · obtain ⟨r, hr, hrl, hru⟩ := hrec hd (next_query sq.research_goal fu)
      (newBreadth b)
      (pl ++ nl)
      (pu ++ items.filterMap
        (fun item => item.url.bind (fun u => if u = "" then none else some u)))
    simp only [process_queryF, hitems, hex, hd, if_true, hr]
    exact ⟨fun x hx => hrl (by simp [hx]), fun x hx => hru (by simp [hx])⟩
  · simp only [process_queryF, hitems, hex, hd, if_false]
    exact ⟨fun x hx => by simp [hx], fun x hx => by simp [hx]⟩

theorem deep_researchF_monotone (env : Env) (h1 : PlansNonempty env)
    (h2 : SearchTotal env) (h3 : ExtractTotal env) :
    ∀ (fuel : Nat) (d : Int), d.toNat < fuel →
    ∀ (q : String) (b c : Nat) (pl pu : List String),
    ∃ r, deep_researchF fuel env q b d c pl pu = .ok r ∧
      pl ⊆ r.learnings ∧ pu ⊆ r.visited_urls := by
  intro fuel
  induction fuel with
  | zero => intro d hd; omega
  | succ f ih =>
    intro d hd q b c pl pu
    obtain ⟨qs, hqs, hqsne⟩ := h1 q b pl
    have hbranch : ∀ sq : SerpQuery,
        pl ⊆ (process_queryF (deep_researchF f env) env b d c pl pu sq).learnings ∧
        pu ⊆ (process_queryF (deep_researchF f env) env b d c pl pu sq).visited_urls := by
      intro sq
      refine process_queryF_monotone (deep_researchF f env) env b d c pl pu sq
        h2 h3 ?_
      intro hdpos q' b' pl' pu'
      have hfd : (d - 1).toNat < f := by omega
      exact ih (d - 1) hfd q' b' c pl' pu'
    obtain ⟨sq0, rest, rfl⟩ := List.exists_cons_of_ne_nil hqsne
    refine ⟨⟨dedup (((sq0 :: rest).map
          (process_queryF (deep_researchF f env) env b d c pl pu)).flatMap
          (fun r => r.learnings)),
        dedup (((sq0 :: rest).map
          (process_queryF (deep_researchF f env) env b d c pl pu)).flatMap
          (fun r => r.visited_urls))⟩,
      by simp only [deep_researchF, hqs], ?_, ?_⟩
    · intro x hx
      simp only [dedup, List.mem_dedup, List.mem_flatMap]
      exact ⟨process_queryF (deep_researchF f env) env b d c pl pu sq0,
        by simp, (hbranch sq0).1 hx⟩
    · intro x hx
      simp only [dedup, List.mem_dedup, List.mem_flatMap]
      exact ⟨process_queryF (deep_researchF f env) env b d c pl pu sq0,
        by simp, (hbranch sq0).2 hx⟩

/-- C1: if the Query Planner yields zero sub-queries for a call of
`deep_research`, that call is terminal — but it returns the empty sets, not
its prior `learnings`/`visited_urls`: the aggregation step only unions the
(zero) branch results, so non-empty priors are dropped.  This theorem is the
amended statement; with empty priors the result coincides with the priors, so
the spec's top-level instance `research("Q", 4, 2, 2) = {∅, ∅}` holds. -/
theorem C1_empty_plan_returns_empty (env : Env) (q : String) (b : Nat)
    (d : Int) (c : Nat) (pl pu : List String)
    (h : env.planOut q b pl = .ok []) :
    deep_research env q b d c pl pu = .ok ⟨[], []⟩ := by
  simp [deep_research, deep_researchF, h, dedup]

set_option maxRecDepth 4000 in
/-- C1 counterexample: with priors `{"x"}, {"u"}` and an empty plan the call
returns `{∅, ∅}`, not the priors unchanged. -/
theorem C1_empty_plan_drops_priors_cex :
    envPlanEmpty.planOut "Q" 4 ["x"] = .ok [] ∧
    deep_research envPlanEmpty "Q" 4 2 2 ["x"] ["u"] = .ok ⟨[], []⟩ ∧
    deep_research envPlanEmpty "Q" 4 2 2 ["x"] ["u"] ≠ .ok ⟨["x"], ["u"]⟩ := by
  decide

/-- C1 witness. -/
theorem C1_empty_plan_returns_empty_witness :
    envPlanEmpty.planOut "topic" 3 ["p1", "p2"] = .ok [] ∧
    deep_research envPlanEmpty "topic" 3 3 2 ["p1", "p2"] ["u1"] =
      .ok ⟨[], []⟩ :=
  ⟨rfl, C1_empty_plan_returns_empty envPlanEmpty "topic" 3 3 2 ["p1", "p2"]
    ["u1"] rfl⟩

/-- C2 (amended): for every token counter, text and budget, the text
`trim_prompt` returns either tokenizes to at most the budget or is a text of
at most `MIN_CHUNK_SIZE = 140` characters produced by the forced-truncation
escape, which performs no token check. -/
theorem C2_trim_budget_or_floor (enc : Text → Nat) (t : Text) (n : Nat) :
    enc (trim_prompt enc t n) ≤ n ∨
    (trim_prompt enc t n).length ≤ MIN_CHUNK_SIZE :=
  trim_prompt_budget_or_short enc t n

set_option maxRecDepth 4000 in
/-- C2 counterexample: with the one-token-per-character test counter, a
200-character prompt and budget 10, the result is the 140-character forced
prefix, which tokenizes to 140 > 10. -/
theorem C2_trim_exceeds_budget_cex :
    ¬(lenEnc (trim_prompt lenEnc (List.replicate 200 'a') 10) ≤ 10) ∧
    (trim_prompt lenEnc (List.replicate 200 'a') 10).length =
      MIN_CHUNK_SIZE := by
  decide

/-- C3: `trim_prompt` terminates on every input — each recursive call is on a
strictly shorter text, so any fuel above the text length computes the fixed
point: the recursion depth is bounded by the text length. -/
theorem C3_trim_terminates (enc : Text → Nat) (n : Nat) (t : Text)
    (fuel : Nat) (h : t.length < fuel) :
    trimF fuel enc t n = trim_prompt enc t n :=
  trimF_eq_trim enc n t fuel h

/-- C3 witness. -/
theorem C3_trim_terminates_witness :
    (['h', 'i'] : Text).length < 100 ∧
    trimF 100 lenEnc ['h', 'i'] 1 = trim_prompt lenEnc ['h', 'i'] 1 :=
  ⟨by decide, C3_trim_terminates lenEnc 1 ['h', 'i'] 100 (by decide)⟩

/-- C4 (amended): when every planner call yields a non-empty plan and the
search and extraction collaborators never fail, every `deep_research` call
returns supersets of the priors it was invoked with (each branch merges
union-only, `all_learnings = priors ++ new`).  Without those hypotheses a
branch whose recursive call meets an empty plan (or fails) returns `{∅, ∅}`,
shrinking below the priors — see the counterexample. -/
theorem C4_state_monotone (env : Env) (h1 : PlansNonempty env)
    (h2 : SearchTotal env) (h3 : ExtractTotal env) (q : String) (b : Nat)
    (d : Int) (c : Nat) (pl pu : List String) :
    ∃ r, deep_research env q b d c pl pu = .ok r ∧
      pl ⊆ r.learnings ∧ pu ⊆ r.visited_urls :=
  deep_researchF_monotone env h1 h2 h3 (d.toNat + 1) d (by omega) q b c pl pu

set_option maxRecDepth 4000 in
/-- C4 counterexample: the plan for `"Q"` is non-empty, the branch merges the
priors `{"x"}, {"u"}` and recurses, the recursive call plans zero sub-queries
and returns `{∅, ∅}`, so the branch — and the whole call — returns `{∅, ∅}`:
the state shrinks below the priors along that branch. -/
theorem C4_branch_shrinks_cex :
    envBranchDrop.planOut "Q" 4 ["x"] = .ok [⟨"s", "g"⟩] ∧
    deep_research envBranchDrop "Q" 4 2 2 ["x"] ["u"] = .ok ⟨[], []⟩ ∧
    ¬(["x"] ⊆ ([] : List String)) := by
  decide

/-- C4 witness. -/
theorem C4_state_monotone_witness :
    ∃ r, deep_research envAlwaysOne "Q" 2 1 2 ["x"] ["u"] = .ok r ∧
      ["x"] ⊆ r.learnings ∧ ["u"] ⊆ r.visited_urls :=
  C4_state_monotone envAlwaysOne
    (fun _ _ _ => ⟨[⟨"s", "g"⟩], rfl, by simp⟩)
    (fun _ => ⟨[], rfl⟩)
    (fun _ _ _ => ⟨([], []), rfl⟩)
    "Q" 2 1 2 ["x"] ["u"]

/-- C5 (amended): an LLM planning response that fails JSON decoding yields an
empty plan (non-fatal), and a well-formed response (object whose `queries`
field is an array of objects with exactly the `query`/`research_goal` keys)
yields at most `num_queries` sub-queries; but a response that decodes to JSON
of any other shape raises an uncaught `TypeError`/`AttributeError`, and a
planner failure in `deep_research` is fatal to that invocation (the call is
outside the branch `try`). -/
theorem C5_planner_parse_spec :
    (∀ n, generate_serp_queries none n = .ok []) ∧
    (∀ (j : Json) (n : Nat), wellFormedPlan j = true →
      ∃ l, generate_serp_queries (some j) n = .ok l ∧ l.length ≤ n) ∧
    (∀ (env : Env) (q : String) (b : Nat) (d : Int) (c : Nat)
        (pl pu : List String), env.planOut q b pl = .error () →
      deep_research env q b d c pl pu = .error ()) := by
  refine ⟨fun _ => rfl, generate_serp_queries_wf, ?_⟩
  intro env q b d c pl pu h
  simp [deep_research, deep_researchF, h]

/-- C5 counterexample: a valid-JSON planner response that is an array (not an
object), or whose query entries lack the required keys, raises instead of
degrading to an empty plan. -/
theorem C5_planner_raises_cex :
    generate_serp_queries (some (Json.arr [])) 3 = .error () ∧
    generate_serp_queries (some (Json.obj [("queries",
      Json.arr [Json.obj [("q", Json.num 1)]])])) 3 = .error () :=
  ⟨rfl, rfl⟩

/-- C5 witness. -/
theorem C5_planner_parse_spec_witness :
    wellFormedPlan planJson = true ∧
    (∃ l, generate_serp_queries (some planJson) 2 = .ok l ∧ l.length ≤ 2) ∧
    generate_serp_queries none 5 = .ok [] :=
  ⟨by decide, C5_planner_parse_spec.2.1 planJson 2 (by decide),
   C5_planner_parse_spec.1 5⟩

/-- C6 (amended): for every valid configuration, every chunk `split_text`
returns is the whitespace-strip of the separator-join of consecutive pieces,
each shorter than `chunk_size`, whose lengths sum to at most `chunk_size`
(the sum the code's `total` tracks); the separator characters the join
re-inserts are not counted, so the chunk's own length can exceed
`chunk_size` — see the counterexample — and no atomic-piece exception is
involved. -/
theorem C6_chunk_piece_bound (cs co : Nat) (t c : Text) (_hco : co < cs)
    (hmem : c ∈ splitText cs co t) :
    ∃ sep w, w ≠ [] ∧ (∀ p ∈ w, p.length < cs) ∧ sumLen w ≤ cs ∧
      c = pyStrip (joinSep sep w) ∧ SubSeg (joinSep sep w) t := by
  obtain ⟨sep, w, hne, hlen, hsum, hdoc, _, hsub⟩ :=
    splitText_shape cs co t c hmem
  exact ⟨sep, w, hne, hlen, hsum, hdoc, hsub⟩

/-- C6 counterexample: with `chunk_size = 3`, `chunk_overlap = 0` (a valid
configuration) the input `"a..b"` yields the single chunk `"a..b"` of length
4 > 3, which is a merge of the three pieces `"a"`, `""`, `"b"` — not a single
unsplittable atomic piece. -/
theorem C6_oversized_chunk_cex :
    (0 : Nat) < 3 ∧
    splitText 3 0 ['a', '.', '.', 'b'] = [['a', '.', '.', 'b']] ∧
    3 < (['a', '.', '.', 'b'] : Text).length := by
  decide

/-- C6 witness. -/
theorem C6_chunk_piece_bound_witness :
    ((0 : Nat) < 3 ∧ ['a', '.', '.', 'b'] ∈ splitText 3 0 ['a', '.', '.', 'b']) ∧
    ∃ sep w, w ≠ [] ∧ (∀ p ∈ w, p.length < 3) ∧ sumLen w ≤ 3 ∧
      ['a', '.', '.', 'b'] = pyStrip (joinSep sep w) ∧
      SubSeg (joinSep sep w) ['a', '.', '.', 'b'] :=
  ⟨⟨by decide, by decide⟩,
    C6_chunk_piece_bound 3 0 ['a', '.', '.', 'b'] ['a', '.', '.', 'b']
      (by decide) (by decide)⟩

/-- C7 (amended): every chunk `split_text` returns is a contiguous substring
of the input, so chunks appear in input order without new characters; but
concatenating them does not reconstruct the input, because the separator
between two adjacent chunks (and whitespace stripped at chunk ends) is
dropped — see the counterexample. -/
theorem C7_chunk_subseg (cs co : Nat) (t c : Text) (_hco : co < cs)
    (hmem : c ∈ splitText cs co t) : SubSeg c t :=
  chunkShape_subseg (splitText_shape cs co t c hmem)

/-- C7 counterexample: `"aaaa.bbbb"` with `chunk_size = 5`,
`chunk_overlap = 0` yields chunks `"aaaa"`, `"bbbb"`; the separator `'.'`
appears in the input but in no chunk, so no concatenation (there is no
overlap to account for here) reconstructs the input. -/
theorem C7_drops_separator_cex :
    (0 : Nat) < 5 ∧
    splitText 5 0 ['a', 'a', 'a', 'a', '.', 'b', 'b', 'b', 'b'] =
      [['a', 'a', 'a', 'a'], ['b', 'b', 'b', 'b']] ∧
    '.' ∈ (['a', 'a', 'a', 'a', '.', 'b', 'b', 'b', 'b'] : Text) ∧
    ∀ c ∈ splitText 5 0 ['a', 'a', 'a', 'a', '.', 'b', 'b', 'b', 'b'],
      '.' ∉ c := by
  decide

/-- C7 witness. -/
theorem C7_chunk_subseg_witness :
    ((0 : Nat) < 5 ∧
      ['a', 'a', 'a', 'a'] ∈
        splitText 5 0 ['a', 'a', 'a', 'a', '.', 'b', 'b', 'b', 'b']) ∧
    SubSeg ['a', 'a', 'a', 'a'] ['a', 'a', 'a', 'a', '.', 'b', 'b', 'b', 'b'] :=
  ⟨⟨by decide, by decide⟩,
    C7_chunk_subseg 5 0 ['a', 'a', 'a', 'a', '.', 'b', 'b', 'b', 'b']
      ['a', 'a', 'a', 'a'] (by decide) (by decide)⟩

/-- C8: at recursion level `k` the effective breadth is
`max(1, initialBreadth >> k)`: iterating the per-call update
`new_breadth = max(1, breadth // 2)` of `process_query` `k` times from any
initial breadth `b ≥ 1` gives exactly the shift formula. -/
theorem C8_breadth_decay (b k : Nat) (hb : 1 ≤ b) :
    newBreadth^[k] b = max 1 (b >>> k) := by
  induction k generalizing b with
  | zero =>
    simp only [Function.iterate_zero, id_eq, Nat.shiftRight_zero]
    omega
  | succ k ih =>
    rw [Function.iterate_succ_apply, ih (newBreadth b) (by simp [newBreadth])]
    rcases Nat.lt_or_ge b 2 with hb2 | hb2
    · have hb1 : b = 1 := by omega
      subst hb1
      have h1 : newBreadth 1 = 1 := by simp [newBreadth]
      rw [h1]
      have ha : 1 >>> k ≤ 1 := by
        rw [Nat.shiftRight_eq_div_pow]
        exact Nat.div_le_self 1 (2 ^ k)
      have hb' : 1 >>> (k + 1) ≤ 1 := by
        rw [Nat.shiftRight_eq_div_pow]
        exact Nat.div_le_self 1 (2 ^ (k + 1))
      omega
    · have h1 : newBreadth b = b / 2 := by
        have : 1 ≤ b / 2 := by omega
        simp [newBreadth]
        omega
      rw [h1]
      have hshift : (b / 2) >>> k = b >>> (k + 1) := by
        rw [Nat.shiftRight_eq_div_pow, Nat.shiftRight_eq_div_pow,
          Nat.div_div_eq_div_mul]
        have hp : 2 * 2 ^ k = 2 ^ (k + 1) := by ring
        rw [hp]
      rw [hshift]

/-- C8 witness. -/
theorem C8_breadth_decay_witness :
    1 ≤ 4 ∧ newBreadth^[2] 4 = max 1 (4 >>> 2) :=
  ⟨by decide, C8_breadth_decay 4 2 (by decide)⟩

/-- C9: the Context Trimmer is idempotent for every token counter, text and
budget: a result within budget is returned unchanged, and an over-budget
result is necessarily a forced prefix of at most `MIN_CHUNK_SIZE = 140`
characters, for which the re-run takes the forced-truncation escape and
returns it unchanged. -/
theorem C9_trim_idempotent (enc : Text → Nat) (t : Text) (n : Nat) :
    trim_prompt enc (trim_prompt enc t n) n = trim_prompt enc t n := by
  set r := trim_prompt enc t n with hr
  by_cases hre : r.isEmpty
  · have hnil : r = [] := by simpa using hre
    rw [hnil]
    simp [trim_prompt, trimF]
  · by_cases hbudget : enc r ≤ n
    · show trim_prompt enc r n = r
      unfold trim_prompt
      simp [trimF, hre, hbudget]
    · have hshort : r.length ≤ MIN_CHUNK_SIZE := by
        have h := trim_budget_or_short enc n (t.length + 1) t (by omega)
        rcases h with h | h
        · exact absurd h hbudget
        · exact h
      have hmin : (r.length : Int) - 3 * ((enc r - n : Nat) : Int) <
          (MIN_CHUNK_SIZE : Int) := by
        have h140 : r.length ≤ 140 := by
          simpa [MIN_CHUNK_SIZE] using hshort
        have hov : 1 ≤ enc r - n := by omega
        simp only [MIN_CHUNK_SIZE]
        omega
      have htake : r.take MIN_CHUNK_SIZE = r :=
        List.take_of_length_le hshort
      show trim_prompt enc r n = r
      unfold trim_prompt
      simp [trimF, hre, hbudget, hmin, htake]

/-- C10: every chunk `split_text` returns, for every input and configuration,
is non-empty and carries no leading or trailing whitespace: every chunk is
produced by `_join_docs`, which strips the joined buffer and discards it when
it strips to the empty string. -/
theorem C10_chunks_stripped_nonempty (cs co : Nat) (t c : Text)
    (_hco : co < cs) (hmem : c ∈ splitText cs co t) :
    c ≠ [] ∧ pyStrip c = c := by
  obtain ⟨sep, w, _, _, _, hdoc, hdocne, _⟩ := splitText_shape cs co t c hmem
  refine ⟨hdocne, ?_⟩
  rw [hdoc]
  exact pyStrip_idem (joinSep sep w)

/-- C10 witness. -/
theorem C10_chunks_stripped_nonempty_witness :
    ((1 : Nat) < 3 ∧ ['a', 'b'] ∈ splitText 3 1 ['a', 'b', ' ', 'c', 'd']) ∧
    (['a', 'b'] : Text) ≠ [] ∧ pyStrip ['a', 'b'] = ['a', 'b'] :=
  ⟨⟨by decide, by decide⟩,
    C10_chunks_stripped_nonempty 3 1 ['a', 'b', ' ', 'c', 'd'] ['a', 'b']
      (by decide) (by decide)⟩

end TinyDeepResearch
